import Mathlib

/-!
Shallow embedding of the csync-js client core (key model, validation and
pattern matching; sync state and listener delivery; operation queue and
scheduler; cts generation; value construction; write entry point), together
with theorems settling the specification claims about these components.

Source files embedded: the Key class (src/README.md, third document),
src/lib/app.js, src/lib/operation.js, src/lib/response.js and the Value and
error-code modules (src/unnamed/part_000 and part_001).
-/

set_option maxHeartbeats 1000000

set_option maxRecDepth 100000

namespace CSync

/-! Error codes, from the ErrorCodes module (src/unnamed/part_000). -/

def ErrorCodes.InternalError : Nat := 1

def ErrorCodes.InvalidKey : Nat := 2

def ErrorCodes.InvalidRequest : Nat := 3

def ErrorCodes.RequestError : Nat := 4

/-! Generic association-list maps, modelling plain JS objects used as maps
(memoryDB, vtsIndex, rvtsDict, the per-listener latest map).  Assignment
`m[k] = v` is `alInsert`, lookup `m[k]` is `alLookup`, and `m[k] || d` is
`alLookupD`. -/

def alInsert {α β : Type} [DecidableEq α] (m : List (α × β)) (k : α) (v : β) : List (α × β) :=
  match m with
  | [] => [(k, v)]
  | (k', v') :: rest => if k' = k then (k, v) :: rest else (k', v') :: alInsert rest k v

def alLookup {α β : Type} [DecidableEq α] (m : List (α × β)) (k : α) : Option β :=
  match m with
  | [] => none
  | (k', v') :: rest => if k' = k then some v' else alLookup rest k

def alLookupD {α β : Type} [DecidableEq α] (m : List (α × β)) (k : α) (d : β) : β :=
  (alLookup m k).getD d

/-! Splitting and joining key strings.  `splitDot` embeds the JS
`str.split(".")` for the single-character separator (on the character list
of the string); `joinDot` embeds `components.join(".")`. -/

def splitDot : List Char → List (List Char)
  | [] => [[]]
  | c :: cs =>
    let r := splitDot cs
    if c == '.' then [] :: r
    else
      match r with
      | g :: gs => (c :: g) :: gs
      | [] => [[c]]

def splitComponents (s : String) : List String :=
  (splitDot s.data).map String.mk

def joinDot : List String → String
  | [] => ""
  | [c] => c
  | c :: cs => c ++ "." ++ joinDot cs

/-! The Key class (src/README.md third document, `function Key` and its
prototype methods).  A Key carries its component list, its joined string
form, the per-concrete-key map `latest` of the highest vts delivered to the
listener, and whether a listener callback is currently attached
(`this.listener` is a function, set by `listen` and cleared by `unlisten`). -/

structure Key where
  components : List String
  key : String
  latest : List (String × Nat)
  listening : Bool
deriving DecidableEq

/-- Embeds the Key constructor on a string argument: components are the
string split on periods, except that the empty (root) string yields the
empty component list. -/
def Key.ofString (s : String) : Key :=
  { key := s
    components := if s.length == 0 then [] else splitComponents s
    latest := []
    listening := false }

/-- Embeds the Key constructor on an array argument: the string form is the
components joined with periods. -/
def Key.ofComponents (cs : List String) : Key :=
  { key := joinDot cs
    components := cs
    latest := []
    listening := false }

/-- Embeds `Key.prototype.isKeyPattern`: some component equals `*` or `#`. -/
def Key.isKeyPattern (k : Key) : Bool :=
  k.components.contains "*" || k.components.contains "#"

structure KeyError where
  msg : String
  code : Nat
deriving DecidableEq

/-- Embeds the character-class test of `Key.prototype.error`: the regex
`[a-z0-9_\-]/gi` matched against every character of a component. -/
def isKeyChar (c : Char) : Bool :=
  (97 ≤ c.toNat && c.toNat ≤ 122) || (65 ≤ c.toNat && c.toNat ≤ 90) ||
  (48 ≤ c.toNat && c.toNat ≤ 57) || c == '_' || c == '-'

/-- Embeds the per-component loop of `Key.prototype.error`: each component
must be non-empty and then be `*`, or `#` in the last position (the loop's
`index == this.components.length-1`, here: the rest of the list is empty),
or consist solely of valid key characters.  The first offending component
produces the error. -/
def checkComponents : List String → Option KeyError
  | [] => none
  | part :: rest =>
    if part == "" then some { msg := "Key contains empty component", code := ErrorCodes.InvalidKey }
    else if part == "*" || (part == "#" && rest.isEmpty) || part.data.all isKeyChar then
      checkComponents rest
    else some { msg := "Key contains invalid character", code := ErrorCodes.InvalidKey }

/-- Embeds `Key.prototype.error`.  `keyLength` starts at
`components.length - 1` (the separators, an Int since the root gives -1) and
accumulates the component lengths; the accumulation is summed here in one
expression since the source only reads it after the loop completed without
returning. -/
def Key.error (k : Key) : Option KeyError :=
  if k.components.length > 16 then
    some { msg := "Key contains more than 16 components", code := ErrorCodes.InvalidKey }
  else
    match checkComponents k.components with
    | some e => some e
    | none =>
      let keyLength : Int :=
        (k.components.length : Int) - 1 + ((k.components.map String.length).sum : Int)
      if keyLength > 200 then
        some { msg := "Key exceeds maximum length of 200 characters", code := ErrorCodes.InvalidKey }
      else none

/-- Embeds the indexed loop of `Key.prototype.matches` as recursion over the
pattern components paired with the components of the other key: on `#`
return true at once; if the other key has run out (the source's
`components.length-1 < i`) return false; on a mismatching non-`*` component
return false; after the loop the source requires the two component counts to
be equal, which here is the remaining other components being empty. -/
def matchLoop : List String → List String → Bool
  | [], cs => cs.isEmpty
  | p :: ps, cs =>
    if p == "#" then true
    else
      match cs with
      | [] => false
      | c :: cs2 => if c != p && p != "*" then false else matchLoop ps cs2

/-- Embeds `Key.prototype.matches`: a non-pattern key compares its joined
string with the other key string; a pattern key splits the other key string
on periods and runs the component loop. -/
def Key.matches (k : Key) (other : String) : Bool :=
  if !k.isKeyPattern then k.key == other
  else matchLoop k.components (splitComponents other)

/-! Specification-side definitions for claims C1 and C4, written from the
claim text (to be compared against the embedded code). -/

/-- Component-wise matching algorithm as worded in claim C1: `#` at a
position makes the match succeed for all remaining components, `*` accepts
exactly one component of any value, a literal requires exact equality, a
too-short concrete key fails, and after consuming a pattern without `#` the
concrete key must have exactly as many components as the pattern. -/
def claimMatch : List String → List String → Bool
  | [], cs => cs.isEmpty
  | p :: ps, cs =>
    if p = "#" then true
    else
      match cs with
      | [] => false
      | c :: cs2 => if p = "*" then claimMatch ps cs2 else (c == p && claimMatch ps cs2)

/-- Claim C4's description of an offending component: it contains a
character outside the key character class and is not exactly `*` (anywhere)
and not exactly `#` in the final position. -/
def claimBadComponent : List String → Bool
  | [] => false
  | p :: rest =>
    (!(p.data.all isKeyChar) && p != "*" && !(p == "#" && rest.isEmpty)) || claimBadComponent rest

/-- Claim C4's invalidity condition: more than 16 components, or an empty
component, or an offending component, or a joined string longer than 200
characters. -/
def claimInvalidKey (comps : List String) : Bool :=
  decide (comps.length > 16) || comps.any (fun p => p == "") || claimBadComponent comps ||
  decide ((joinDot comps).length > 200)

/-! Concrete boundary keys for claim C4. -/

def key16x200 : Key := Key.ofComponents (List.replicate 15 "a" ++ [String.mk (List.replicate 170 'a')])

def key17comps : Key := Key.ofComponents (List.replicate 17 "a")

def key16x201 : Key := Key.ofComponents (List.replicate 15 "a" ++ [String.mk (List.replicate 171 'a')])

/-! Dynamically-typed JS values, used for the `data` argument of
`Key.prototype.write` and the `data` property of Value. -/

inductive JsVal where
  | undef
  | null
  | bool (b : Bool)
  | num (n : Int)
  | str (s : String)
  | arr (elems : List JsVal)
  | obj (fields : List (String × JsVal))

/-- JS `typeof` on a JsVal; note that `typeof null` is `"object"`. -/
def jsTypeof : JsVal → String
  | .undef => "undefined"
  | .null => "object"
  | .bool _ => "boolean"
  | .num _ => "number"
  | .str _ => "string"
  | .arr _ => "object"
  | .obj _ => "object"

/-- Lodash `_.isString` on a JsVal. -/
def jsIsString : JsVal → Bool
  | .str _ => true
  | _ => false

/-- A JS primitive value: everything except genuine objects (arrays and
plain objects); null and undefined are primitives. -/
def jsIsPrimitive : JsVal → Bool
  | .arr _ => false
  | .obj _ => false
  | _ => true

/-- A genuine JS object value (an array or a plain object); null is not an
object value even though `typeof null` is `"object"`. -/
def jsIsObjectValue : JsVal → Bool
  | .arr _ => true
  | .obj _ => true
  | _ => false

/-! Model of the JSON.parse builtin (an external collaborator of the
repository, used by the Value constructor), as a recursive-descent parser
over the character list with a fuel bound.  The model covers null, booleans,
integral JSON numbers, strings (with the single-character escapes), arrays
and objects; fractional or exponent numbers and unicode escapes are outside
the model and are treated as parse failures. -/

def skipWs : List Char → List Char
  | [] => []
  | c :: cs => if c == ' ' || c == '\n' || c == '\t' || c == '\r' then skipWs cs else c :: cs

def takeDigits : List Char → List Char × List Char
  | [] => ([], [])
  | c :: cs =>
    if 48 ≤ c.toNat && c.toNat ≤ 57 then
      let r := takeDigits cs
      (c :: r.1, r.2)
    else ([], c :: cs)

def digitsToNat (ds : List Char) : Nat :=
  ds.foldl (fun a c => a * 10 + (c.toNat - 48)) 0

def parseNum (cs : List Char) : Option (Int × List Char) :=
  let sign := match cs with
    | c :: r => if c == '-' then (true, r) else (false, cs)
    | [] => (false, cs)
  match takeDigits sign.2 with
  | ([], _) => none
  | (ds, rest) =>
    if ds.length > 1 && ds.headD '0' == '0' then none
    else
      match rest with
      | c :: _ =>
        if c == '.' || c == 'e' || c == 'E' then none
        else some ((if sign.1 then -(digitsToNat ds : Int) else (digitsToNat ds : Int)), rest)
      | [] => some ((if sign.1 then -(digitsToNat ds : Int) else (digitsToNat ds : Int)), rest)

def parseStrChars : List Char → Option (List Char × List Char)
  | [] => none
  | c :: rest =>
    if c == '"' then some ([], rest)
    else if c == '\\' then
      match rest with
      | [] => none
      | e :: rest2 =>
        let dec : Option Char :=
          if e == '"' then some '"'
          else if e == '\\' then some '\\'
          else if e == '/' then some '/'
          else if e == 'n' then some '\n'
          else if e == 't' then some '\t'
          else if e == 'r' then some '\r'
          else if e == 'b' then some (Char.ofNat 8)
          else if e == 'f' then some (Char.ofNat 12)
          else none
        match dec with
        | none => none
        | some ch => (parseStrChars rest2).map (fun p => (ch :: p.1, p.2))
    else if c.toNat < 32 then none
    else (parseStrChars rest).map (fun p => (c :: p.1, p.2))

def parseStrBody (cs : List Char) : Option (String × List Char) :=
  (parseStrChars cs).map (fun p => (String.mk p.1, p.2))

inductive PMode where
  | val
  | elems (first : Bool)
  | members (first : Bool)

inductive POut where
  | v (x : JsVal)
  | vs (xs : List JsVal)
  | ms (fs : List (String × JsVal))

def parseF : Nat → PMode → List Char → Option (POut × List Char)
  | 0, _, _ => none
  | Nat.succ f, PMode.val, cs =>
    match skipWs cs with
    | 'n' :: 'u' :: 'l' :: 'l' :: r => some (.v .null, r)
    | 't' :: 'r' :: 'u' :: 'e' :: r => some (.v (.bool true), r)
    | 'f' :: 'a' :: 'l' :: 's' :: 'e' :: r => some (.v (.bool false), r)
    | '"' :: r => (parseStrBody r).map (fun p => (.v (.str p.1), p.2))
    | c :: r =>
      if c.toNat == 91 then
        match parseF f (.elems true) r with
        | some (.vs xs, r2) => some (.v (.arr xs), r2)
        | _ => none
      else if c.toNat == 123 then
        match parseF f (.members true) r with
        | some (.ms fs, r2) => some (.v (.obj fs), r2)
        | _ => none
      else (parseNum (c :: r)).map (fun p => (.v (.num p.1), p.2))
    | [] => none
  | Nat.succ f, PMode.elems first, cs =>
    match skipWs cs with
    | [] => none
    | c :: r =>
      if c.toNat == 93 then some (.vs [], r)
      else
        let body := if first then some (c :: r) else if c.toNat == 44 then some r else none
        match body with
        | none => none
        | some cs2 =>
          match parseF f .val cs2 with
          | some (.v x, r2) =>
            match parseF f (.elems false) r2 with
            | some (.vs xs, r3) => some (.vs (x :: xs), r3)
            | _ => none
          | _ => none
  | Nat.succ f, PMode.members first, cs =>
    match skipWs cs with
    | [] => none
    | c :: r =>
      if c.toNat == 125 then some (.ms [], r)
      else
        let body := if first then some (c :: r) else if c.toNat == 44 then some r else none
        match body with
        | none => none
        | some cs2 =>
          match skipWs cs2 with
          | '"' :: r1 =>
            match parseStrBody r1 with
            | none => none
            | some (kstr, r2) =>
              match skipWs r2 with
              | c2 :: r3 =>
                if c2.toNat == 58 then
                  match parseF f .val r3 with
                  | some (.v x, r4) =>
                    match parseF f (.members false) r4 with
                    | some (.ms fs, r5) => some (.ms ((kstr, x) :: fs), r5)
                    | _ => none
                  | _ => none
                else none
              | [] => none
          | _ => none

def jsonParse (s : String) : Option JsVal :=
  match parseF (2 * s.length + 4) PMode.val s.data with
  | some (POut.v v, rest) => if (skipWs rest).isEmpty then some v else none
  | _ => none

/-! The Value class (src/unnamed/part_001) and the server payload it is
constructed from. -/

structure Payload where
  path : List String
  deletePath : Bool
  data : String
  acl : Option String
  creator : Option String
  cts : Option Nat
  vts : Nat

structure Value where
  key : String
  exists_ : Bool
  stable : Bool
  data : JsVal
  acl : Option String
  creator : Option String
  cts : Option Nat
  vts : Nat

/-- Embeds the Value constructor, with the JSON.parse builtin abstracted as
the `parse` parameter: `key` is the payload path joined with periods,
`exists` is the negation of `deletePath`, `stable` is true, and `data` is
the result of `JSON.parse(payload.data)` when the parse succeeds and the
raw `payload.data` string when it throws (the source's try/catch). -/
def Value.ofPayloadWith (parse : String → Option JsVal) (p : Payload) : Value :=
  { key := joinDot p.path
    exists_ := !p.deletePath
    stable := true
    data := match parse p.data with
            | some v => v
            | none => JsVal.str p.data
    acl := p.acl
    creator := p.creator
    cts := p.cts
    vts := p.vts }

/-- The Value constructor with the JSON.parse model plugged in. -/
def Value.ofPayload (p : Payload) : Value := Value.ofPayloadWith jsonParse p

/-! Sync state of the App (src/lib/app.js constructor): memoryDB maps
concrete key strings to the latest Value, vtsIndex maps vts to the key
string, rvtsDict maps the acl-prefixed pattern string to its committed
rvts, and listeners is the array of Key objects with active listeners. -/

structure SyncState where
  memoryDB : List (String × Value)
  vtsIndex : List (Nat × String)
  rvtsDict : List (String × Nat)
  listeners : List Key

/-- The vts the source reads from `this.memoryDB[value.key] || { vts: 0}`. -/
def storedVts (st : SyncState) (k : String) : Nat :=
  match alLookup st.memoryDB k with
  | some v => v.vts
  | none => 0

/-- Embeds `Key.prototype.deliver` (src/README.md): the task scheduled with
process.nextTick, run atomically on the single-threaded loop.  If a
listener callback is still attached, read the recorded highest delivered
vts for the value's key (`self.latest[value.key] || 0`); when strictly
smaller than `value.vts`, record `value.vts` and invoke the callback with
`(null, value)` — the invoked value is returned as `some`. -/
def Key.deliver (l : Key) (v : Value) : Key × Option Value :=
  if l.listening then
    let lastvts := alLookupD l.latest v.key 0
    if lastvts < v.vts then
      ({ l with latest := alInsert l.latest v.key v.vts }, some v)
    else (l, none)
  else (l, none)

/-- The list of values an optional delivery produces (empty when dropped). -/
def optToList {g : Type} : Option g → List g
  | some x => [x]
  | none => []

/-- The listener fan-out loop of `App.prototype.deliverToListeners`: for
each listener whose pattern matches the value's key, run its delivery task,
collecting the values each callback receives. -/
def deliverAll (ls : List Key) (v : Value) : List Key × List Value :=
  match ls with
  | [] => ([], [])
  | l :: rest =>
    let hd := if l.matches v.key then Key.deliver l v else (l, none)
    let tl := deliverAll rest v
    (hd.1 :: tl.1, optToList hd.2 ++ tl.2)

/-- Embeds `App.prototype.deliverToListeners` (src/lib/app.js 331-347):
drop the value when its vts is not greater than the vts stored in memoryDB
(default 0); otherwise store it in memoryDB and vtsIndex and fan out to the
matching listeners.  Returns the new state together with the values
delivered to listener callbacks. -/
def App.deliverToListeners (st : SyncState) (v : Value) : SyncState × List Value :=
  if v.vts ≤ storedVts st v.key then (st, [])
  else
    let st1 : SyncState :=
      { st with memoryDB := alInsert st.memoryDB v.key v
                vtsIndex := alInsert st.vtsIndex v.vts v.key }
    let r := deliverAll st1.listeners v
    ({ st1 with listeners := r.1 }, r.2)

/-- Runs a listener's delivery task over a sequence of values in order,
returning the final listener state and the values its callback received. -/
def runDeliver (l : Key) (vs : List Value) : Key × List Value :=
  match vs with
  | [] => (l, [])
  | v :: rest =>
    let r := Key.deliver l v
    let r2 := runDeliver r.1 rest
    (r2.1, optToList r.2 ++ r2.2)

/-- The vts values observed by a listener callback for one concrete key,
in delivery order. -/
def deliveredFor (vs : List Value) (c : String) : List Nat :=
  (vs.filter (fun v => v.key == c)).map Value.vts

/-! The Advance response processing of `Operation.prototype.processResponse`
(src/lib/operation.js 206-241). -/

/-- The advanceResponse payload as parsed by Response (src/lib/response.js):
the vts list (`payload.vts || []`) and the optional maxvts. -/
structure AdvanceResp where
  vts : List Nat
  maxvts : Option Nat

/-- The action the advance processing takes after the vts loop: either a
Fetch operation `(pattern, vts list, rvtsPrime)` is enqueued, or the
rvtsDict entry is committed to rvtsPrime (and the next advance or the flag
clearing is left to the scheduled timer). -/
inductive AdvOutcome where
  | fetchEnqueued (pat : Key) (vtsList : List Nat) (rvtsPrime : Nat)
  | committed (rvtsPrime : Nat)

/-- The `_.forEach(response.vts, ...)` loop of the advance processing: a vts
absent from vtsIndex, or whose memoryDB value is older, is pushed onto
vtsToFetch; otherwise the cached value is re-sent through
deliverToListeners.  Reading `value.vts` on an absent memoryDB entry throws
in the source (caught by its try/catch); that is the `none` result. -/
def advLoop (st : SyncState) (l : List Nat) :
    Option (SyncState × List Value × List Nat) :=
  match l with
  | [] => some (st, [], [])
  | vts :: rest =>
    match alLookup st.vtsIndex vts with
    | none => (advLoop st rest).map (fun r => (r.1, r.2.1, vts :: r.2.2))
    | some keyForVts =>
      match alLookup st.memoryDB keyForVts with
      | none => none
      | some value =>
        if value.vts < vts then (advLoop st rest).map (fun r => (r.1, r.2.1, vts :: r.2.2))
        else
          let d := App.deliverToListeners st value
          (advLoop d.1 rest).map (fun r => (r.1, d.2 ++ r.2.1, r.2.2))

/-- Embeds `response.maxvts || _.reduce(response.vts, max-fold, this.rvts)`:
the fallback fold is used when maxvts is absent or zero (JS falsiness). -/
def rvtsPrimeOf (rvts : Nat) (resp : AdvanceResp) : Nat :=
  match resp.maxvts with
  | some m =>
    if m != 0 then m
    else resp.vts.foldl (fun mx val => if val > mx then val else mx) rvts
  | none => resp.vts.foldl (fun mx val => if val > mx then val else mx) rvts

/-- Embeds the advance branch of `Operation.prototype.processResponse` for
a response without error: run the vts loop, compute rvtsPrime, and either
enqueue a Fetch carrying `(this.keyObj, vtsToFetch, rvtsPrime)` or commit
`rvtsDict['*.'+this.keyObj.key] = rvtsPrime`.  `rvts` is the value the
operation snapshotted from rvtsDict when it built its request.  `none`
models the caught exception path. -/
def processAdvanceResponse (keyObj : Key) (st : SyncState) (rvts : Nat)
    (resp : AdvanceResp) : Option (SyncState × List Value × AdvOutcome) :=
  match advLoop st resp.vts with
  | none => none
  | some (st1, ds, vtsToFetch) =>
    let rvtsPrime := rvtsPrimeOf rvts resp
    if vtsToFetch.length > 0 then
      some (st1, ds, AdvOutcome.fetchEnqueued keyObj vtsToFetch rvtsPrime)
    else
      some ({ st1 with rvtsDict := alInsert st1.rvtsDict ("*." ++ keyObj.key) rvtsPrime },
            ds, AdvOutcome.committed rvtsPrime)

/-- Claim C5's fetch-list membership condition on the pre-state: the vts is
absent from vtsIndex, or the cached value is stale.  (The case of a
vtsIndex entry without a memoryDB entry aborts processing and never reaches
the fetch list.) -/
def shouldFetch (st : SyncState) (vts : Nat) : Bool :=
  match alLookup st.vtsIndex vts with
  | none => true
  | some k =>
    match alLookup st.memoryDB k with
    | none => true
    | some v => decide (v.vts < vts)

/-- Spec invariant on the sync state: every memoryDB entry stores a value
whose key field is its own key. -/
def wfMemoryDB (st : SyncState) : Bool :=
  st.memoryDB.all (fun e => e.2.key == e.1)

/-- Spec invariant on the sync state: every vtsIndex entry points at an
existing memoryDB entry (processing an advance response for a state
violating this throws in the source). -/
def wfVtsIndex (st : SyncState) : Bool :=
  st.vtsIndex.all (fun e => (alLookup st.memoryDB e.2).isSome)

/-! Concrete sync state for the claim C5 counterexample: one cached value
for key `k` at vts 5, indexed in vtsIndex, with one live listener whose
pattern matches `k`. -/

def valK : Value :=
  { key := "k", exists_ := true, stable := true, data := JsVal.str "x",
    acl := none, creator := none, cts := none, vts := 5 }

def lisK : Key := { components := ["k"], key := "k", latest := [], listening := true }

def stC5 : SyncState :=
  { memoryDB := [("k", valK)], vtsIndex := [(5, "k")], rvtsDict := [], listeners := [lisK] }

def respC5 : AdvanceResp := { vts := [5], maxvts := some 0 }

/-! The operation queue and scheduler (src/lib/app.js addOperation and
removeOperation; src/lib/operation.js query and the operation
constructors).  A queued operation record keeps the object identity
(`opId`, standing for the JS object reference used by `_.find(queue, op)`
identity comparison and `_.pull`), its kind string, the identity of its
associated Key object when it has one (`query()` puts `keyObj` into the
query exactly when the operation has one; lodash matching then requires the
same Key object, getAcls operations having none match on kind alone), and
the started flag. -/

structure OpR where
  opId : Nat
  kind : String
  keyId : Option Nat
  started : Bool
deriving DecidableEq

/-- Embeds `_.find(queue, op.query())` matching for one queue entry: the
kinds agree, and when the query carries a keyObj the entry's key identity
agrees (a query without keyObj constrains only the kind). -/
def matchesQuery (qu : String × Option Nat) (o : OpR) : Bool :=
  o.kind == qu.1 &&
    (match qu.2 with
     | none => true
     | some k => o.keyId == some k)

/-- Embeds `next.start()` on the result of `_.find`: flip the started flag
of the first queue entry matching the query. -/
def startFirstMatch (q : List OpR) (qu : String × Option Nat) : List OpR :=
  match q with
  | [] => []
  | o :: rest =>
    if matchesQuery qu o then { o with started := true } :: rest
    else o :: startFirstMatch rest qu

structure QState where
  queue : List OpR
  nextId : Nat

/-- Embeds `App.prototype.addOperation`: push the new (unstarted) operation
and start it only when `_.find(queue, op.query())` returns the operation
itself, which — the new operation being last and matching its own query —
happens exactly when no operation already in the queue matches the query. -/
def addOperation (st : QState) (kind : String) (keyId : Option Nat) : QState :=
  if (st.queue.find? (fun o => matchesQuery (kind, keyId) o)).isSome then
    { queue := st.queue ++ [{ opId := st.nextId, kind := kind, keyId := keyId, started := false }],
      nextId := st.nextId + 1 }
  else
    { queue := st.queue ++ [{ opId := st.nextId, kind := kind, keyId := keyId, started := true }],
      nextId := st.nextId + 1 }

/-- Embeds `App.prototype.removeOperation`: `_.pull` the operation out of
the queue (by object identity), then start the first remaining operation
matching the finished operation's query, if any. -/
def removeOperation (st : QState) (opId : Nat) : QState :=
  match st.queue.find? (fun o => o.opId == opId) with
  | none => st
  | some op =>
    { queue := startFirstMatch (st.queue.filter (fun o => o.opId != opId)) (op.kind, op.keyId),
      nextId := st.nextId }

/-- Scheduler events: each constructor mirrors one Operation constructor of
src/lib/operation.js enqueued through addOperation (`sub` covers both the
sub and unsub flavours, which share kind "sub"), and `finish` mirrors
Operation.prototype.finish calling removeOperation. -/
inductive QEvent where
  | pub (keyId : Nat)
  | sub (keyId : Nat)
  | getAcls
  | advance (keyId : Nat)
  | fetch (keyId : Nat)
  | finish (opId : Nat)

def stepQ (st : QState) (e : QEvent) : QState :=
  match e with
  | QEvent.pub kid => addOperation st "pub" (some kid)
  | QEvent.sub kid => addOperation st "sub" (some kid)
  | QEvent.getAcls => addOperation st "getAcls" none
  | QEvent.advance kid => addOperation st "advance" (some kid)
  | QEvent.fetch kid => addOperation st "fetch" (some kid)
  | QEvent.finish oid => removeOperation st oid

def initQ : QState := { queue := [], nextId := 0 }

def runQ (evs : List QEvent) : QState := evs.foldl stepQ initQ

/-- Claim C3's serialization relation on queue positions: a later operation
with the same query signature (same kind and same associated-key identity)
as an earlier, still unfinished one has not been started. -/
def sigSer (o1 o2 : OpR) : Prop :=
  o1.kind = o2.kind → o1.keyId = o2.keyId → o2.started = false

/-- Scheduler invariant: same-signature operations are serialized (every
started operation is the earliest of its signature), every queued id is
below the id counter, and the queue lists operations in enqueue order. -/
def QInv (st : QState) : Prop :=
  st.queue.Pairwise sigSer ∧ (∀ o ∈ st.queue, o.opId < st.nextId) ∧
    (st.queue.map OpR.opId).Pairwise (· < ·)

/-! `Key.prototype.listen` and its invalid-key tick (src/README.md,
lines 619-639 of the Key source).  The `listener` parameter is a JS
function value; the scheduled tick reads its `listener` property, which on
a plain callback function is undefined. -/

/-- The value of the `listener` property of the function object passed to
listen: undefined on a plain callback (functions have no such own
property), or null, or itself a callable if the caller attached one. -/
inductive JsPropVal where
  | undef
  | null
  | func (fid : Nat)
deriving DecidableEq

structure ListenerArg where
  listenerProp : JsPropVal
deriving DecidableEq

/-- What the tick scheduled for an invalid key does. -/
inductive TickOutcome where
  | typeError
  | calledWithErrorMethod (fid : Nat)
  | skipped
deriving DecidableEq

/-- Embeds the body of the tick `if (listener.listener !== null) {
listener.listener(self.error, null); }`: a null property skips; an
undefined property passes the `!== null` guard and the call of undefined
throws a TypeError; a callable property is invoked — with `self.error`,
the error method itself rather than its result, as first argument. -/
def listenInvalidTick (arg : ListenerArg) : TickOutcome :=
  match arg.listenerProp with
  | JsPropVal.null => TickOutcome.skipped
  | JsPropVal.undef => TickOutcome.typeError
  | JsPropVal.func fid => TickOutcome.calledWithErrorMethod fid

inductive ListenResult where
  | errorTick (t : TickOutcome)
  | registered
deriving DecidableEq

/-- Embeds `Key.prototype.listen`: when `this.error()` is non-null,
schedule the tick above and return without storing the listener or calling
`app.addListener` (no subscribe or advance operation is enqueued);
otherwise store the listener and register with the app. -/
def Key.listen (k : Key) (arg : ListenerArg) : ListenResult :=
  if (Key.error k).isSome then ListenResult.errorTick (listenInvalidTick arg)
  else ListenResult.registered

/-! `App.prototype.nextCts` (src/lib/app.js 210-214) and `Operation.pub`
(src/lib/operation.js 38-47).  `Date.now()` is the `now` parameter. -/

structure CtsState where
  lastCts : Nat
deriving DecidableEq

/-- Embeds `this.lastCts = Math.max(this.lastCts+1, Date.now()); return
this.lastCts;`. -/
def App.nextCts (now : Nat) (s : CtsState) : CtsState × Nat :=
  let v := Nat.max (s.lastCts + 1) now
  ({ lastCts := v }, v)

/-- A pub operation as built by `Operation.pub` and then filled in by
`Key.prototype.write` / `Key.prototype.delete`. -/
structure PubOp where
  keyObj : Key
  cts : Nat
  deletePath : Bool
  data : Option String
  aclid : Option String

/-- Embeds `Operation.pub(keyObj)`: stamp the operation with the app's next
cts. -/
def Operation.pub (keyObj : Key) (now : Nat) (s : CtsState) : CtsState × PubOp :=
  let r := App.nextCts now s
  (r.1, { keyObj := keyObj, cts := r.2, deletePath := false, data := none, aclid := none })

/-! Model of the JSON.stringify builtin (an external collaborator), on the
JsVal domain: null, booleans and integers print their literal form, strings
are quoted with quote and backslash escaped (control-character escapes are
outside the model), arrays bracket their elements with undefined elements
printed as null, objects brace their members with undefined-valued members
dropped, and stringify of undefined itself is undefined (`none`). -/

def escJsonChar (c : Char) : String :=
  if c == '"' then "\\\"" else if c == '\\' then "\\\\" else String.singleton c

def quoteJson (s : String) : String :=
  "\"" ++ String.join (s.data.map escJsonChar) ++ "\""

def joinComma : List String → String
  | [] => ""
  | [x] => x
  | x :: xs => x ++ "," ++ joinComma xs

def jsonStringify : JsVal → Option String
  | JsVal.undef => none
  | JsVal.null => some "null"
  | JsVal.bool b => some (if b then "true" else "false")
  | JsVal.num n => some (toString n)
  | JsVal.str s => some (quoteJson s)
  | JsVal.arr xs =>
    some ("[" ++ joinComma (xs.attach.map
        (fun x => (jsonStringify x.1).getD "null")) ++ "]")
  | JsVal.obj fs =>
    some ("\x7b" ++ joinComma (fs.attach.filterMap
        (fun kv => (jsonStringify kv.1.2).map
          (fun sv => quoteJson kv.1.1 ++ ":" ++ sv))) ++ "\x7d")
decreasing_by
  · have h := List.sizeOf_lt_of_mem x.2
    simp only [JsVal.arr.sizeOf_spec]
    omega
  · have h := List.sizeOf_lt_of_mem kv.2
    have h2 : sizeOf kv.1 = 1 + sizeOf kv.1.1 + sizeOf kv.1.2 := by
      rcases kv with ⟨⟨a, b⟩, hk⟩
      simp
    simp only [JsVal.obj.sizeOf_spec]
    omega

/-! `Key.prototype.write` (src/README.md, lines 526-560 of the Key
source). -/

/-- The options argument of write: `acl` is the optional options.acl
object, whose `id` property may itself be undefined. -/
structure WriteOptions where
  acl : Option (Option String)

inductive WriteOutcome where
  | rejected (code : Nat)
  | enqueued (op : PubOp)

/-- Embeds `if (options.acl !== undefined && options.acl.id !== undefined)
op.aclid = options.acl.id;`. -/
def setAclOption (op : PubOp) (opts : WriteOptions) : PubOp :=
  match opts.acl with
  | some (some aclid) => { op with aclid := some aclid }
  | _ => op

/-- Embeds `Key.prototype.write`: build the pub operation (stamping a cts),
then dispatch on the data argument — a string is placed on the operation
verbatim; a value of typeof "object" (including null) is serialized with
JSON.stringify; any other defined value rejects the promise with
RequestError before any operation is enqueued; undefined data falls through
and enqueues the operation with no data field.  The returned outcome is the
enqueued operation or the local rejection, alongside the cts state already
advanced by the operation constructor. -/
def Key.write (k : Key) (d : JsVal) (opts : WriteOptions) (now : Nat) (s : CtsState) :
    CtsState × WriteOutcome :=
  let r := Operation.pub k now s
  match d with
  | JsVal.str strv =>
    (r.1, WriteOutcome.enqueued (setAclOption { r.2 with data := some strv } opts))
  | _ =>
    if jsTypeof d == "object" then
      (r.1, WriteOutcome.enqueued (setAclOption { r.2 with data := jsonStringify d } opts))
    else
      match d with
      | JsVal.undef => (r.1, WriteOutcome.enqueued (setAclOption r.2 opts))
      | _ => (r.1, WriteOutcome.rejected ErrorCodes.RequestError)

end CSync

namespace CSync

/-! Helper lemmas for the key model. -/

theorem matchLoop_eq_claimMatch : ∀ ps cs, matchLoop ps cs = claimMatch ps cs := by
  intro ps
  induction ps with
  | nil => intro cs; rfl
  | cons p ps ih =>
    intro cs
    by_cases hp : p = "#"
    · simp [matchLoop, claimMatch, hp]
    · cases cs with
      | nil => simp [matchLoop, claimMatch, hp]
      | cons c cs2 =>
        by_cases hstar : p = "*"
        · simp [matchLoop, claimMatch, hp, hstar, ih]
        · by_cases hc : c = p
          · simp [matchLoop, claimMatch, hp, hstar, hc, ih]
          · simp [matchLoop, claimMatch, hp, hstar, hc]

theorem splitDot_ne_nil : ∀ l, splitDot l ≠ [] := by
  intro l
  induction l with
  | nil => simp [splitDot]
  | cons c cs ih =>
    simp only [splitDot]
    cases h : splitDot cs with
    | nil => exact absurd h ih
    | cons g gs =>
      by_cases hc : c = '.'
      · simp [hc]
      · simp [hc, h]

theorem splitDot_append_dot : ∀ (a b : List Char), (∀ c ∈ a, c ≠ '.') →
    splitDot (a ++ '.' :: b) = a :: splitDot b := by
  intro a
  induction a with
  | nil => intro b _; simp [splitDot]
  | cons c a2 ih =>
    intro b h
    have hc : c ≠ '.' := h c (by simp)
    have hrec := ih b (fun x hx => h x (by simp [hx]))
    simp only [List.cons_append, splitDot]
    simp [hc, hrec]

theorem isKeyChar_ne_dot (c : Char) (h : isKeyChar c = true) : c ≠ '.' := by
  intro he
  subst he
  exact absurd h (by decide)

end CSync

namespace CSync

theorem checkComponents_isSome : ∀ comps,
    (checkComponents comps).isSome = (comps.any (fun p => p == "") || claimBadComponent comps) := by
  intro comps
  induction comps with
  | nil => rfl
  | cons part rest ih =>
    simp only [checkComponents, claimBadComponent, List.any_cons]
    by_cases h1 : part = ""
    · subst h1; simp
    · have h1b : (part == "") = false := by simp [h1]
      cases ha : part == "*" with
      | true => simp [h1b, ha, ih, bne]
      | false =>
        cases hb : part == "#" && rest.isEmpty with
        | true => simp [h1b, ha, hb, ih, bne]
        | false =>
          cases hall : part.data.all isKeyChar with
          | true => simp [h1b, ha, hb, hall, ih, bne]
          | false => simp [h1b, ha, hb, hall, bne]

theorem checkComponents_code : ∀ comps e, checkComponents comps = some e →
    e.code = ErrorCodes.InvalidKey := by
  intro comps
  induction comps with
  | nil => intro e h; exact absurd h (by simp [checkComponents])
  | cons part rest ih =>
    intro e h
    simp only [checkComponents] at h
    split at h
    · cases h; rfl
    · split at h
      · exact ih e h
      · cases h; rfl

theorem joinDot_cons_cons (c c2 : String) (cs2 : List String) :
    joinDot (c :: c2 :: cs2) = c ++ "." ++ joinDot (c2 :: cs2) := rfl

theorem joinDot_length : ∀ (c : String) (cs : List String),
    (joinDot (c :: cs)).length = ((c :: cs).map String.length).sum + cs.length := by
  intro c cs
  induction cs generalizing c with
  | nil => simp [joinDot]
  | cons c2 cs2 ih =>
    rw [joinDot_cons_cons, String.length_append, String.length_append, ih c2]
    simp only [List.map_cons, List.sum_cons, List.length_cons]
    have hdot : (".").length = 1 := rfl
    rw [hdot]
    omega

theorem lengthCond_iff : ∀ comps : List String,
    (((comps.length : Int) - 1 + ((comps.map String.length).sum : Int)) > 200) ↔
      ((joinDot comps).length > 200) := by
  intro comps
  cases comps with
  | nil => decide
  | cons c cs =>
    rw [joinDot_length c cs]
    simp only [List.map_cons, List.sum_cons, List.length_cons]
    generalize (cs.map String.length).sum = S
    push_cast
    omega

end CSync

namespace CSync

theorem splitComponents_triple (x : String) (hall : ∀ c ∈ x.data, c ≠ '.') :
    splitComponents ("foo." ++ x ++ ".baz") = ["foo", x, "baz"] := by
  have hdata : ("foo." ++ x ++ ".baz").data
      = ('f' :: 'o' :: 'o' :: '.' :: (x.data ++ '.' :: ('b' :: 'a' :: 'z' :: []))) := by
    have h1 : ("foo." ++ x ++ ".baz").data = "foo.".data ++ x.data ++ ".baz".data := by
      simp [String.data_append]
    rw [h1]
    simp
  unfold splitComponents
  rw [hdata]
  have hfoo : ∀ c ∈ ['f', 'o', 'o'], c ≠ '.' := by decide
  have h2 := splitDot_append_dot ['f', 'o', 'o'] (x.data ++ '.' :: ('b' :: 'a' :: 'z' :: [])) hfoo
  have h3 := splitDot_append_dot x.data ('b' :: 'a' :: 'z' :: []) hall
  have hshape : ('f' :: 'o' :: 'o' :: '.' :: (x.data ++ '.' :: ('b' :: 'a' :: 'z' :: [])))
      = (['f', 'o', 'o'] ++ '.' :: (x.data ++ '.' :: ('b' :: 'a' :: 'z' :: []))) := rfl
  rw [hshape, h2, h3]
  have hbaz : splitDot ('b' :: 'a' :: 'z' :: []) = [['b', 'a', 'z']] := by decide
  rw [hbaz]
  simp [String.mk]

/-- Claim C1: Key.matches implements the component-wise algorithm: a key
without wildcards matches exactly its own string; `#` at a position makes
the match succeed for all remaining components (so `foo.bar.#` matches
`foo.bar` itself); `*` accepts exactly one component of any value; a
literal component requires exact equality; and after consuming a pattern
without `#`, the concrete key must have exactly as many components as the
pattern (so `foo.*.baz` matches neither `foo.bar` nor `foo.bar.baz.qux`). -/
theorem claim1_matches_algorithm :
    (∀ (k : Key) (other : String), k.isKeyPattern = false → k.matches other = (k.key == other)) ∧
    (∀ (k : Key) (other : String), k.isKeyPattern = true →
       k.matches other = claimMatch k.components (splitComponents other)) ∧
    ((Key.ofString "foo.bar.#").matches "foo.bar" = true) ∧
    ((Key.ofString "foo.bar.#").matches "foo.bar.baz" = true) ∧
    ((Key.ofString "foo.bar.#").matches "foo.bar.2.3.4.5.6.7.8.9.a.b.c.d.e.f" = true) ∧
    ((Key.ofString "foo.bar.#").matches "foo" = false) ∧
    ((Key.ofString "foo.bar.#").matches "foo.baz" = false) ∧
    (∀ x : String, x.data ≠ [] → x.data.all isKeyChar = true →
       (Key.ofString "foo.*.baz").matches ("foo." ++ x ++ ".baz") = true) ∧
    ((Key.ofString "foo.*.baz").matches "foo.bar" = false) ∧
    ((Key.ofString "foo.*.baz").matches "foo.bar.baz.qux" = false) := by
  refine ⟨?_, ?_, by decide, by decide, by decide, by decide, by decide, ?_, by decide, by decide⟩
  · intro k other h
    simp [Key.matches, h]
  · intro k other h
    simp [Key.matches, h, matchLoop_eq_claimMatch]
  · intro x _ hall
    have hnd : ∀ c ∈ x.data, c ≠ '.' := by
      intro c hc
      exact isKeyChar_ne_dot c (by
        have := List.all_eq_true.mp hall c hc
        simpa using this)
    have hk : (Key.ofString "foo.*.baz").isKeyPattern = true := by decide
    have hcomp : (Key.ofString "foo.*.baz").components = ["foo", "*", "baz"] := by decide
    simp only [Key.matches, hk, Bool.not_true, Bool.false_eq_true, if_false, hcomp,
      splitComponents_triple x hnd]
    simp [matchLoop]

/-- Witness for claim C1 at concrete inputs: the non-pattern key `foo.bar`
matched against its own string, and `foo.*.baz` matched against
`foo.qux.baz`. -/
theorem claim1_matches_algorithm_witness :
    ((Key.ofString "foo.bar").matches "foo.bar" = ((Key.ofString "foo.bar").key == "foo.bar")) ∧
    ((Key.ofString "foo.*.baz").matches ("foo." ++ "qux" ++ ".baz") = true) :=
  ⟨claim1_matches_algorithm.1 (Key.ofString "foo.bar") "foo.bar" (by decide),
   (claim1_matches_algorithm.2.2.2.2.2.2.2.1) "qux" (by decide) (by decide)⟩

end CSync

namespace CSync

/-- Claim C4: Key.error returns an error with code InvalidKey exactly when
the key has more than 16 components, an empty component, a component with a
character outside the key class (other than `*` anywhere or `#` in final
position), or a joined string length greater than 200; the root key is
valid, a 16-component 200-character key is valid, and 17 components or 201
characters are invalid. -/
theorem claim4_key_validation :
    (∀ k : Key, (Key.error k).isSome = claimInvalidKey k.components) ∧
    (∀ (k : Key) (e : KeyError), Key.error k = some e → e.code = ErrorCodes.InvalidKey) ∧
    (Key.error (Key.ofString "") = none) ∧
    (Key.error key16x200 = none) ∧
    ((Key.error key17comps).isSome = true) ∧
    ((Key.error key16x201).isSome = true) := by
  refine ⟨?_, ?_, by decide, by decide, by decide, by decide⟩
  · intro k
    unfold Key.error claimInvalidKey
    by_cases h16 : k.components.length > 16
    · simp [h16]
    · rw [if_neg h16]
      have hd16 : decide (k.components.length > 16) = false := by simp [h16]
      rw [hd16, Bool.false_or]
      cases hc : checkComponents k.components with
      | some e =>
        have h := checkComponents_isSome k.components
        rw [hc] at h
        simp only [Option.isSome_some] at h
        rw [Option.isSome_some, ← h]
        simp
      | none =>
        have h := checkComponents_isSome k.components
        rw [hc] at h
        simp only [Option.isSome_none] at h
        have h2 := h.symm
        rw [Bool.or_eq_false_iff] at h2
        obtain ⟨hany, hbad⟩ := h2
        rw [hany, hbad]
        simp only [Bool.false_or]
        split
        next hl =>
          have hj := (lengthCond_iff k.components).mp hl
          simp [hj]
        next hl =>
          have hnot : ¬((joinDot k.components).length > 200) :=
            fun hcon => hl ((lengthCond_iff k.components).mpr hcon)
          simp [hnot]
  · intro k e h
    unfold Key.error at h
    by_cases h16 : k.components.length > 16
    · rw [if_pos h16] at h
      injection h with he
      rw [← he]
    · rw [if_neg h16] at h
      cases hc : checkComponents k.components with
      | some e2 =>
        rw [hc] at h
        injection h with he
        rw [← he]
        exact checkComponents_code k.components e2 hc
      | none =>
        rw [hc] at h
        split at h
        · rename_i heq
          exact absurd heq (by simp)
        · dsimp only at h
          split at h
          · injection h with he
            rw [← he]
          · exact absurd h (by simp)

/-- Witness for claim C4: the invalid key `a..b` produces the
empty-component error, whose code is InvalidKey. -/
theorem claim4_key_validation_witness :
    ({ msg := "Key contains empty component", code := 2 : KeyError }).code
      = ErrorCodes.InvalidKey :=
  claim4_key_validation.2.1 (Key.ofString "a..b")
    { msg := "Key contains empty component", code := 2 } (by decide)

/-- Claim C9: matching the empty-string root key: the single-component
patterns `*` and `#` both match the empty string, because the empty string
splits into a list holding one empty component which `*` accepts, even
though the root key itself has zero components. -/
theorem claim9_root_wildcard_match :
    ((Key.ofString "*").matches "" = true) ∧
    ((Key.ofString "#").matches "" = true) ∧
    ((Key.ofString "").components.length = 0) ∧
    (splitComponents "" = [""]) := by
  refine ⟨by decide, by decide, by decide, by decide⟩

end CSync

namespace CSync

/-! Helper lemmas about association-list maps. -/

theorem alLookup_alInsert_self {α β : Type} [DecidableEq α] (m : List (α × β)) (k : α) (v : β) :
    alLookup (alInsert m k v) k = some v := by
  induction m with
  | nil => simp [alInsert, alLookup]
  | cons e rest ih =>
    obtain ⟨k2, v2⟩ := e
    by_cases h : k2 = k
    · simp [alInsert, alLookup, h]
    · simp [alInsert, alLookup, h, ih]

theorem alLookup_alInsert_ne {α β : Type} [DecidableEq α] (m : List (α × β)) (k k' : α) (v : β)
    (h : k' ≠ k) : alLookup (alInsert m k v) k' = alLookup m k' := by
  induction m with
  | nil => simp [alInsert, alLookup, Ne.symm h]
  | cons e rest ih =>
    obtain ⟨k2, v2⟩ := e
    by_cases h2 : k2 = k
    · subst h2
      simp [alInsert, alLookup, Ne.symm h]
    · simp [alInsert, alLookup, h2, ih]

theorem alLookup_mem {α β : Type} [DecidableEq α] (m : List (α × β)) (k : α) (v : β)
    (h : alLookup m k = some v) : (k, v) ∈ m := by
  induction m with
  | nil => simp [alLookup] at h
  | cons e rest ih =>
    obtain ⟨k2, v2⟩ := e
    by_cases h2 : k2 = k
    · subst h2
      simp [alLookup] at h
      rw [← h]
      exact List.mem_cons_self _ _
    · simp [alLookup, h2] at h
      exact List.mem_cons_of_mem _ (ih h)

/-! Characterization of a single delivery task. -/

theorem deliver_none (l : Key) (v : Value) (l' : Key) (h : Key.deliver l v = (l', none)) :
    l' = l := by
  unfold Key.deliver at h
  dsimp only at h
  split_ifs at h with h1 h2
  · simp [Prod.mk.injEq] at h
  · rw [Prod.mk.injEq] at h; exact h.1.symm
  · rw [Prod.mk.injEq] at h; exact h.1.symm

theorem deliver_some (l : Key) (v : Value) (l' : Key) (d : Value)
    (h : Key.deliver l v = (l', some d)) :
    d = v ∧ l.listening = true ∧ alLookupD l.latest v.key 0 < v.vts ∧
      l' = { l with latest := alInsert l.latest v.key v.vts } := by
  unfold Key.deliver at h
  dsimp only at h
  split_ifs at h with h1 h2
  · rw [Prod.mk.injEq] at h
    obtain ⟨hL, hD⟩ := h
    injection hD with hd
    exact ⟨hd.symm, h1, h2, hL.symm⟩
  · simp [Prod.mk.injEq] at h
  · simp [Prod.mk.injEq] at h

/-- Per-listener monotonicity invariant: over any sequence of delivery
tasks, the values the callback receives for a fixed concrete key carry
strictly increasing vts, all above the initially recorded vts. -/
theorem runDeliver_pairwise : ∀ (vs : List Value) (l : Key) (c : String),
    ((deliveredFor (runDeliver l vs).2 c).Pairwise (· < ·)) ∧
    (∀ x ∈ deliveredFor (runDeliver l vs).2 c, alLookupD l.latest c 0 < x) := by
  intro vs
  induction vs with
  | nil => intro l c; simp [runDeliver, deliveredFor]
  | cons v rest ih =>
    intro l c
    rcases hdel : Key.deliver l v with ⟨l', d⟩
    have hrun : (runDeliver l (v :: rest)).2
        = optToList d ++ (runDeliver l' rest).2 := by
      simp [runDeliver, hdel]
    rw [hrun]
    cases d with
    | none =>
      have hll : l' = l := deliver_none l v l' hdel
      subst hll
      simpa [optToList] using ih l' c
    | some x =>
      obtain ⟨hxv, hlis, hlt, hl'⟩ := deliver_some l v l' x hdel
      subst hxv
      by_cases hk : x.key = c
      · have hfil : deliveredFor (optToList (some x) ++ (runDeliver l' rest).2) c
            = x.vts :: deliveredFor (runDeliver l' rest).2 c := by
          simp [deliveredFor, optToList, hk]
        rw [hfil]
        have ihr := ih l' c
        have hlook : alLookupD l'.latest c 0 = x.vts := by
          rw [hl', ← hk]
          simp [alLookupD, alLookup_alInsert_self]
        have hbase : alLookupD l.latest c 0 < x.vts := by
          rw [← hk]; exact hlt
        constructor
        · refine List.Pairwise.cons ?_ ihr.1
          intro y hy
          have := ihr.2 y hy
          rw [hlook] at this
          exact this
        · intro y hy
          rcases List.mem_cons.mp hy with h1 | h2
          · rw [h1]; exact hbase
          · have := ihr.2 y h2
            rw [hlook] at this
            omega
      · have hfil : deliveredFor (optToList (some x) ++ (runDeliver l' rest).2) c
            = deliveredFor (runDeliver l' rest).2 c := by
          simp [deliveredFor, optToList, hk]
        rw [hfil]
        have ihr := ih l' c
        have hlook : alLookupD l'.latest c 0 = alLookupD l.latest c 0 := by
          rw [hl']
          simp [alLookupD, alLookup_alInsert_ne _ _ _ _ (fun hcc => hk hcc.symm)]
        constructor
        · exact ihr.1
        · intro y hy
          have := ihr.2 y hy
          rw [hlook] at this
          exact this

/-- Claim C2: the sequence of vts values a listener's callback observes for
one concrete key is strictly increasing (so each distinct vts is delivered
at most once): deliverToListeners drops a value whose vts is not strictly
greater than the vts stored in memoryDB for that key, and the per-listener
delivery task invokes the callback with the value only when its vts is
strictly greater than the recorded highest-delivered vts for that key,
updating the record in the same atomic task. -/
theorem claim2_vts_monotonic_delivery :
    (∀ (st : SyncState) (v : Value), v.vts ≤ storedVts st v.key →
       App.deliverToListeners st v = (st, [])) ∧
    (∀ (l : Key) (v : Value) (l' : Key) (d : Value), Key.deliver l v = (l', some d) →
       d = v ∧ l.listening = true ∧ alLookupD l.latest v.key 0 < v.vts ∧
         l'.latest = alInsert l.latest v.key v.vts) ∧
    (∀ (l : Key) (vs : List Value) (c : String),
       (deliveredFor (runDeliver l vs).2 c).Pairwise (· < ·)) := by
  refine ⟨?_, ?_, ?_⟩
  · intro st v h
    simp [App.deliverToListeners, h]
  · intro l v l' d h
    obtain ⟨h1, h2, h3, h4⟩ := deliver_some l v l' d h
    exact ⟨h1, h2, h3, by rw [h4]⟩
  · intro l vs c
    exact (runDeliver_pairwise vs l c).1

/-- Witness for claim C2: a value with vts 3 against a state whose stored
value for the same key has vts 5 is dropped without state change. -/
theorem claim2_vts_monotonic_delivery_witness :
    App.deliverToListeners
        { memoryDB := [("k", valK)], vtsIndex := [(5, "k")], rvtsDict := [], listeners := [] }
        { key := "k", exists_ := true, stable := true, data := JsVal.str "y",
          acl := none, creator := none, cts := none, vts := 3 }
      = ({ memoryDB := [("k", valK)], vtsIndex := [(5, "k")], rvtsDict := [], listeners := [] },
         []) :=
  claim2_vts_monotonic_delivery.1
    { memoryDB := [("k", valK)], vtsIndex := [(5, "k")], rvtsDict := [], listeners := [] }
    { key := "k", exists_ := true, stable := true, data := JsVal.str "y",
      acl := none, creator := none, cts := none, vts := 3 }
    (by decide)

end CSync

namespace CSync

theorem wf1_key (st : SyncState) (h : wfMemoryDB st = true) (k : String) (v : Value)
    (hl : alLookup st.memoryDB k = some v) : v.key = k := by
  have hm := alLookup_mem st.memoryDB k v hl
  have := List.all_eq_true.mp h (k, v) hm
  simpa using this

/-- Re-sending a cached value through deliverToListeners drops it: its vts
is not greater than the vts stored for its own key. -/
theorem deliver_self_drop (st : SyncState) (k : String) (v : Value)
    (h1 : wfMemoryDB st = true) (hl : alLookup st.memoryDB k = some v) :
    App.deliverToListeners st v = (st, []) := by
  have hk := wf1_key st h1 k v hl
  have hs : storedVts st v.key = v.vts := by
    rw [hk]
    simp [storedVts, hl]
  rw [App.deliverToListeners, hs]
  simp

theorem advLoop_wf (st : SyncState) (h1 : wfMemoryDB st = true) (h2 : wfVtsIndex st = true) :
    ∀ l : List Nat, advLoop st l = some (st, [], l.filter (shouldFetch st)) := by
  intro l
  induction l with
  | nil => simp [advLoop]
  | cons vts rest ih =>
    simp only [advLoop]
    cases hv : alLookup st.vtsIndex vts with
    | none =>
      rw [ih]
      have hf : shouldFetch st vts = true := by simp [shouldFetch, hv]
      simp [List.filter, hf]
    | some k =>
      have hmem := alLookup_mem st.vtsIndex vts k hv
      have hsome := List.all_eq_true.mp h2 (vts, k) hmem
      simp only at hsome
      cases hvv : alLookup st.memoryDB k with
      | none => rw [hvv] at hsome; simp at hsome
      | some value =>
        by_cases hlt : value.vts < vts
        · have hf : shouldFetch st vts = true := by simp [shouldFetch, hv, hvv, hlt]
          simp [hvv, hlt, ih, List.filter, hf]
        · have hdrop := deliver_self_drop st k value h1 hvv
          have hf : shouldFetch st vts = false := by simp [shouldFetch, hv, hvv, hlt]
          simp [hvv, hlt, hdrop, ih, List.filter, hf]

theorem maxFoldFn_eq : (fun mx val => if val > mx then val else mx)
    = (fun mx val => Nat.max mx val) := by
  funext mx val
  rw [show Nat.max mx val = if mx ≤ val then val else mx from Nat.max_def]
  split_ifs <;> omega

/-- Claim C5 (amended): when an Advance response is processed without
error on a well-formed state, every returned vts present in vtsIndex with a
cached value at least as new is passed to deliverToListeners, which drops
it as not newer than the stored value, so no listener callback receives it
and the state is unchanged; every returned vts absent from vtsIndex or with
a stale cached value is collected, in order, into the fetch list; a
non-empty fetch list enqueues a Fetch carrying (pattern, vts list,
rvtsPrime), and otherwise rvtsDict is committed; rvtsPrime is the
response's maxvts when provided and non-zero (JS truthiness), and otherwise
the maximum of the snapshotted rvts and the returned vts values. -/
theorem claim5_advance_processing :
    (∀ (keyObj : Key) (st : SyncState) (rvts : Nat) (resp : AdvanceResp),
      wfMemoryDB st = true → wfVtsIndex st = true →
      processAdvanceResponse keyObj st rvts resp =
        (if (resp.vts.filter (shouldFetch st)).length > 0 then
          some (st, [], AdvOutcome.fetchEnqueued keyObj (resp.vts.filter (shouldFetch st))
                          (rvtsPrimeOf rvts resp))
        else
          some ({ st with rvtsDict := alInsert st.rvtsDict ("*." ++ keyObj.key)
                            (rvtsPrimeOf rvts resp) },
                [], AdvOutcome.committed (rvtsPrimeOf rvts resp)))) ∧
    (∀ (rvts : Nat) (resp : AdvanceResp),
      rvtsPrimeOf rvts resp =
        match resp.maxvts with
        | some m => if m ≠ 0 then m else resp.vts.foldl Nat.max rvts
        | none => resp.vts.foldl Nat.max rvts) := by
  constructor
  · intro keyObj st rvts resp hw1 hw2
    unfold processAdvanceResponse
    rw [advLoop_wf st hw1 hw2 resp.vts]
  · intro rvts resp
    unfold rvtsPrimeOf
    rw [maxFoldFn_eq]
    cases resp.maxvts with
    | some m =>
      by_cases hm : m = 0
      · simp [hm]
      · simp [hm]
    | none => rfl

/-- Witness for claim C5: on the concrete state with `k` cached at vts 5, an
advance response returning vts 5 and 9 with no maxvts and snapshot rvts 3
delivers nothing and enqueues a Fetch for vts 9 with rvtsPrime 9. -/
theorem claim5_advance_processing_witness :
    processAdvanceResponse lisK stC5 3 { vts := [5, 9], maxvts := none }
      = some (stC5, [], AdvOutcome.fetchEnqueued lisK [9] 9) := by
  have h := claim5_advance_processing.1 lisK stC5 3 { vts := [5, 9], maxvts := none }
    (by decide) (by decide)
  rw [h]
  rfl

/-- Claim C5 counterexample: the state stC5 caches key `k` at vts 5 with a
live listener matching `k`; the advance response returns vts 5 (present in
vtsIndex, cached value's vts 5 ≥ 5) with maxvts 0 provided and snapshot
rvts 7.  Contrary to the claim, no value is re-delivered to the matching
listener (the delivered list is empty, deliverToListeners having dropped
the cached value), and rvtsPrime is 7 rather than the provided maxvts 0. -/
theorem claim5_counterexample :
    lisK.matches "k" = true ∧ lisK.listening = true ∧ valK.vts = 5 ∧
    alLookup stC5.vtsIndex 5 = some "k" ∧ alLookup stC5.memoryDB "k" = some valK ∧
    respC5.maxvts = some 0 ∧
    processAdvanceResponse lisK stC5 7 respC5
      = some ({ stC5 with rvtsDict := [("*.k", 7)] }, [], AdvOutcome.committed 7) ∧
    (7 : Nat) ≠ 0 := by
  exact ⟨by decide, by decide, by decide, by decide, by rfl, by rfl, by rfl, by decide⟩

end CSync

namespace CSync

theorem matchesQuery_self (oid : Nat) (kind : String) (keyId : Option Nat) (b : Bool) :
    matchesQuery (kind, keyId) { opId := oid, kind := kind, keyId := keyId, started := b }
      = true := by
  cases keyId <;> simp [matchesQuery]

theorem matchesQuery_of_sig (qu : String × Option Nat) (x y : OpR)
    (hm : matchesQuery qu y = true) (hk : x.kind = y.kind) (hi : x.keyId = y.keyId) :
    matchesQuery qu x = true := by
  rcases qu with ⟨qk, qi⟩
  cases qi with
  | none =>
    simp only [matchesQuery] at hm ⊢
    simp only [Bool.and_true] at hm ⊢
    rw [hk]
    exact hm
  | some k =>
    simp only [matchesQuery] at hm ⊢
    rw [Bool.and_eq_true] at hm ⊢
    exact ⟨by rw [hk]; exact hm.1, by rw [hi]; exact hm.2⟩

theorem mem_startFirstMatch (q : List OpR) (qu : String × Option Nat) (x : OpR)
    (hx : x ∈ startFirstMatch q qu) :
    x ∈ q ∨ ∃ y ∈ q, matchesQuery qu y = true ∧ x = { y with started := true } := by
  induction q with
  | nil => simp [startFirstMatch] at hx
  | cons o rest ih =>
    simp only [startFirstMatch] at hx
    by_cases hm : matchesQuery qu o = true
    · rw [if_pos hm] at hx
      rcases List.mem_cons.mp hx with h1 | h2
      · exact Or.inr ⟨o, List.mem_cons_self _ _, hm, h1⟩
      · exact Or.inl (List.mem_cons_of_mem _ h2)
    · rw [if_neg hm] at hx
      rcases List.mem_cons.mp hx with h1 | h2
      · exact Or.inl (by rw [h1]; exact List.mem_cons_self _ _)
      · rcases ih h2 with ha | ⟨y, hy, hmy, hxy⟩
        · exact Or.inl (List.mem_cons_of_mem _ ha)
        · exact Or.inr ⟨y, List.mem_cons_of_mem _ hy, hmy, hxy⟩

theorem startFirstMatch_pairwise (q : List OpR) (qu : String × Option Nat)
    (h : q.Pairwise sigSer) : (startFirstMatch q qu).Pairwise sigSer := by
  induction q with
  | nil => simp [startFirstMatch]
  | cons o rest ih =>
    rw [List.pairwise_cons] at h
    obtain ⟨h1, h2⟩ := h
    simp only [startFirstMatch]
    by_cases hm : matchesQuery qu o = true
    · rw [if_pos hm, List.pairwise_cons]
      exact ⟨fun o2 ho2 hk hi => h1 o2 ho2 hk hi, h2⟩
    · rw [if_neg hm, List.pairwise_cons]
      refine ⟨?_, ih h2⟩
      intro o2 ho2 hk hi
      rcases mem_startFirstMatch rest qu o2 ho2 with ha | ⟨y, hy, hmy, hxy⟩
      · exact h1 o2 ha hk hi
      · exfalso
        apply hm
        rw [hxy] at hk hi
        exact matchesQuery_of_sig qu o y hmy hk hi

theorem startFirstMatch_map_opId (q : List OpR) (qu : String × Option Nat) :
    (startFirstMatch q qu).map OpR.opId = q.map OpR.opId := by
  induction q with
  | nil => rfl
  | cons o rest ih =>
    simp only [startFirstMatch]
    by_cases hm : matchesQuery qu o = true
    · rw [if_pos hm]; simp
    · rw [if_neg hm]; simp [ih]

theorem addOperation_inv (st : QState) (kind : String) (keyId : Option Nat) (h : QInv st) :
    QInv (addOperation st kind keyId) := by
  obtain ⟨hp, hb, ho⟩ := h
  unfold addOperation
  have hcommon2 : ∀ b : Bool, ∀ o ∈ st.queue ++
      [{ opId := st.nextId, kind := kind, keyId := keyId, started := b : OpR }],
      o.opId < st.nextId + 1 := by
    intro b o hoMem
    rcases List.mem_append.mp hoMem with ha | hb2
    · exact Nat.lt_succ_of_lt (hb o ha)
    · simp at hb2
      rw [hb2]
      exact Nat.lt_succ_self _
  have hcommon3 : ∀ b : Bool, ((st.queue ++
      [{ opId := st.nextId, kind := kind, keyId := keyId, started := b : OpR }]).map
        OpR.opId).Pairwise (· < ·) := by
    intro b
    rw [List.map_append, List.pairwise_append]
    refine ⟨ho, by simp, ?_⟩
    intro x hx y hy
    simp only [List.map_cons, List.map_nil, List.mem_singleton] at hy
    rw [hy]
    simp only [List.mem_map] at hx
    obtain ⟨o, hoM, hxo⟩ := hx
    rw [← hxo]
    exact hb o hoM
  by_cases hf : (st.queue.find? (fun o => matchesQuery (kind, keyId) o)).isSome
  · rw [if_pos hf]
    refine ⟨?_, hcommon2 false, hcommon3 false⟩
    rw [List.pairwise_append]
    refine ⟨hp, by simp, ?_⟩
    intro o1 h1 o2 h2
    simp only [List.mem_singleton] at h2
    rw [h2]
    intro _ _
    rfl
  · rw [if_neg hf]
    have hnone : st.queue.find? (fun o => matchesQuery (kind, keyId) o) = none := by
      cases hcase : st.queue.find? (fun o => matchesQuery (kind, keyId) o) with
      | none => rfl
      | some z => rw [hcase] at hf; simp at hf
    have hnomatch : ∀ o ∈ st.queue, matchesQuery (kind, keyId) o = false := by
      intro o hoM
      have := List.find?_eq_none.mp hnone o hoM
      simpa using this
    refine ⟨?_, hcommon2 true, hcommon3 true⟩
    rw [List.pairwise_append]
    refine ⟨hp, by simp, ?_⟩
    intro o1 h1 o2 h2
    simp only [List.mem_singleton] at h2
    rw [h2]
    intro hk hi
    exfalso
    have hm : matchesQuery (kind, keyId) o1 = true :=
      matchesQuery_of_sig (kind, keyId) o1 _ (matchesQuery_self st.nextId kind keyId true) hk hi
    rw [hnomatch o1 h1] at hm
    exact Bool.false_ne_true hm

theorem removeOperation_inv (st : QState) (oid : Nat) (h : QInv st) :
    QInv (removeOperation st oid) := by
  obtain ⟨hp, hb, ho⟩ := h
  unfold removeOperation
  cases hf : st.queue.find? (fun o => o.opId == oid) with
  | none => exact ⟨hp, hb, ho⟩
  | some op =>
    refine ⟨?_, ?_, ?_⟩
    · exact startFirstMatch_pairwise _ _
        (hp.sublist (List.filter_sublist _))
    · intro o hoMem
      rcases mem_startFirstMatch _ _ o hoMem with ha | ⟨y, hy, _, hxy⟩
      · exact hb o (List.mem_of_mem_filter ha)
      · have := hb y (List.mem_of_mem_filter hy)
        rw [hxy]
        exact this
    · rw [startFirstMatch_map_opId]
      exact ho.sublist ((List.filter_sublist _).map _)

theorem stepQ_inv (st : QState) (e : QEvent) (h : QInv st) : QInv (stepQ st e) := by
  cases e with
  | pub kid => exact addOperation_inv st "pub" (some kid) h
  | sub kid => exact addOperation_inv st "sub" (some kid) h
  | getAcls => exact addOperation_inv st "getAcls" none h
  | advance kid => exact addOperation_inv st "advance" (some kid) h
  | fetch kid => exact addOperation_inv st "fetch" (some kid) h
  | finish oid => exact removeOperation_inv st oid h

theorem runQ_inv_aux : ∀ (evs : List QEvent) (st : QState), QInv st → QInv (evs.foldl stepQ st) := by
  intro evs
  induction evs with
  | nil => intro st h; exact h
  | cons e rest ih => intro st h; exact ih (stepQ st e) (stepQ_inv st e h)

/-- Claim C3: operations with the same query signature — (kind, associated
Key object) for keyed operations, (kind) alone for GetAcls — are
serialized: in every reachable scheduler state, the queue holds the
unfinished operations in enqueue order (their ids are strictly increasing)
and an operation preceded by an unfinished operation of the same signature
has not been started, because addOperation starts an operation only when it
is the earliest queued operation matching its signature and removeOperation
starts the earliest remaining operation with the finished operation's
signature. -/
theorem claim3_queue_serialization : ∀ evs : List QEvent,
    ((runQ evs).queue).Pairwise sigSer ∧
      ((runQ evs).queue.map OpR.opId).Pairwise (· < ·) := by
  intro evs
  have h := runQ_inv_aux evs initQ ⟨by simp [initQ], by simp [initQ], by simp [initQ]⟩
  exact ⟨h.1, h.2.2⟩

end CSync

namespace CSync

/-- Claim C6 counterexample: a payload whose data string is `7` parses as
JSON, so the constructed Value's data field holds the number 7, not the
payload's data string verbatim. -/
theorem claim6_counterexample :
    jsonParse "7" = some (JsVal.num 7) ∧
    (Value.ofPayload
        { path := ["k"], deletePath := false, data := "7",
          acl := none, creator := none, cts := none, vts := 1 }).data
      ≠ JsVal.str "7" := by
  refine ⟨rfl, ?_⟩
  intro h
  have h2 : JsVal.num 7 = JsVal.str "7" := h
  exact JsVal.noConfusion h2

/-- Claim C6 (amended): for every Value constructed from a server payload,
the data field holds the JSON-parsed value of the payload's data string
when parsing succeeds, and the raw data string verbatim when parsing
fails — so the core does not lose the data when the string fails to parse
as JSON.  Stated for any parse function standing in for the JSON.parse
builtin. -/
theorem claim6_data_preservation :
    ∀ (parse : String → Option JsVal) (p : Payload),
      (parse p.data = none → (Value.ofPayloadWith parse p).data = JsVal.str p.data) ∧
      (∀ v, parse p.data = some v → (Value.ofPayloadWith parse p).data = v) := by
  intro parse p
  constructor
  · intro h
    simp [Value.ofPayloadWith, h]
  · intro v h
    simp [Value.ofPayloadWith, h]

/-- Witness for claim C6: the data string `not json` fails to parse and is
preserved verbatim on the Value. -/
theorem claim6_data_preservation_witness :
    (Value.ofPayloadWith jsonParse
        { path := ["k"], deletePath := false, data := "not json",
          acl := none, creator := none, cts := none, vts := 1 }).data
      = JsVal.str "not json" :=
  (claim6_data_preservation jsonParse
    { path := ["k"], deletePath := false, data := "not json",
      acl := none, creator := none, cts := none, vts := 1 }).1 rfl

/-- Claim C7 (the claim describes the intended behaviour; the code has a
latent bug): calling listen on the invalid key `a..b` with a plain callback
function takes the invalid-key early return — no listener is registered and
no operation is enqueued — but the scheduled tick reads the undefined
`listener.listener` property, passes the `!== null` guard, and throws a
TypeError attempting to call undefined, so the supplied callback is never
invoked with the key-validity error. -/
theorem claim7_listen_invalid_key_outcome :
    ((Key.error (Key.ofString "a..b")).isSome = true) ∧
    (Key.listen (Key.ofString "a..b") { listenerProp := JsPropVal.undef }
      = ListenResult.errorTick TickOutcome.typeError) ∧
    (listenInvalidTick { listenerProp := JsPropVal.undef } = TickOutcome.typeError) := by
  exact ⟨by decide, by decide, by decide⟩

/-- Claim C8 counterexample: null is a JS primitive that is neither a
string nor an object value, yet `write(null)` does not reject — because
`typeof null` is `"object"`, the code serializes it to the string `null`
and enqueues the operation.  Moreover, for data that is genuinely rejected
(the number 42), the app state is not left unchanged: the cts counter has
already been advanced from 5 to 6 by the operation constructor. -/
theorem claim8_counterexample :
    jsIsPrimitive JsVal.null = true ∧
    jsIsString JsVal.null = false ∧
    jsIsObjectValue JsVal.null = false ∧
    (Key.write (Key.ofString "a") JsVal.null { acl := none } 0 { lastCts := 0 }
      = ({ lastCts := 1 },
         WriteOutcome.enqueued
           { keyObj := Key.ofString "a", cts := 1, deletePath := false,
             data := some "null", aclid := none })) ∧
    (Key.write (Key.ofString "a") (JsVal.num 42) { acl := none } 0 { lastCts := 5 }
      = ({ lastCts := 6 }, WriteOutcome.rejected 4)) := by
  refine ⟨by decide, by decide, by decide, ?_, ?_⟩
  · simp [Key.write, Operation.pub, App.nextCts, setAclOption, jsTypeof, jsonStringify]
  · simp [Key.write, Operation.pub, App.nextCts, setAclOption, jsTypeof,
      ErrorCodes.RequestError]

/-- Claim C8 (amended): Key.write with defined data whose typeof is neither
`string` nor `object` rejects the returned promise locally with
RequestError (4) and enqueues no operation, though the cts counter has
already been advanced by the operation constructor; string data is placed
on the operation verbatim; and typeof-`object` data (which includes null)
is serialized with JSON.stringify; undefined data enqueues the operation
with no data field. -/
theorem claim8_write_rejection :
    (∀ (k : Key) (d : JsVal) (opts : WriteOptions) (now : Nat) (s : CtsState),
      jsTypeof d ≠ "string" → jsTypeof d ≠ "object" → d ≠ JsVal.undef →
      (Key.write k d opts now s).2 = WriteOutcome.rejected ErrorCodes.RequestError ∧
      (Key.write k d opts now s).1.lastCts = Nat.max (s.lastCts + 1) now) ∧
    (∀ (k : Key) (strv : String) (opts : WriteOptions) (now : Nat) (s : CtsState),
      (Key.write k (JsVal.str strv) opts now s).2 =
        WriteOutcome.enqueued (setAclOption
          { keyObj := k, cts := Nat.max (s.lastCts + 1) now, deletePath := false,
            data := some strv, aclid := none } opts)) ∧
    (∀ (k : Key) (d : JsVal) (opts : WriteOptions) (now : Nat) (s : CtsState),
      jsTypeof d = "object" →
      (Key.write k d opts now s).2 =
        WriteOutcome.enqueued (setAclOption
          { keyObj := k, cts := Nat.max (s.lastCts + 1) now, deletePath := false,
            data := jsonStringify d, aclid := none } opts)) ∧
    (∀ (k : Key) (opts : WriteOptions) (now : Nat) (s : CtsState),
      (Key.write k JsVal.undef opts now s).2 =
        WriteOutcome.enqueued (setAclOption
          { keyObj := k, cts := Nat.max (s.lastCts + 1) now, deletePath := false,
            data := none, aclid := none } opts)) := by
  refine ⟨?_, ?_, ?_, ?_⟩
  · intro k d opts now s hs ho hu
    cases d with
    | undef => exact absurd rfl hu
    | null => exact absurd rfl ho
    | bool b =>
      exact ⟨by simp [Key.write, Operation.pub, App.nextCts, jsTypeof],
             by simp [Key.write, Operation.pub, App.nextCts, jsTypeof]⟩
    | num n =>
      exact ⟨by simp [Key.write, Operation.pub, App.nextCts, jsTypeof],
             by simp [Key.write, Operation.pub, App.nextCts, jsTypeof]⟩
    | str strv => exact absurd rfl hs
    | arr xs => exact absurd rfl ho
    | obj fs => exact absurd rfl ho
  · intro k strv opts now s
    simp [Key.write, Operation.pub, App.nextCts]
  · intro k d opts now s ho
    cases d with
    | undef => exact absurd ho (by simp [jsTypeof])
    | null => simp [Key.write, Operation.pub, App.nextCts, jsTypeof]
    | bool b => exact absurd ho (by simp [jsTypeof])
    | num n => exact absurd ho (by simp [jsTypeof])
    | str strv => exact absurd ho (by simp [jsTypeof])
    | arr xs => simp [Key.write, Operation.pub, App.nextCts, jsTypeof]
    | obj fs => simp [Key.write, Operation.pub, App.nextCts, jsTypeof]
  · intro k opts now s
    simp [Key.write, Operation.pub, App.nextCts, jsTypeof]

/-- Witness for claim C8: writing the number 42 rejects with RequestError
and leaves the cts counter advanced. -/
theorem claim8_write_rejection_witness :
    (Key.write (Key.ofString "b") (JsVal.num 42) { acl := none } 7 { lastCts := 9 }).2
        = WriteOutcome.rejected ErrorCodes.RequestError ∧
    (Key.write (Key.ofString "b") (JsVal.num 42) { acl := none } 7 { lastCts := 9 }).1.lastCts
        = Nat.max (9 + 1) 7 :=
  claim8_write_rejection.1 (Key.ofString "b") (JsVal.num 42) { acl := none } 7 { lastCts := 9 }
    (by decide) (by decide) (fun h => JsVal.noConfusion h)

/-- Claim C10: every call to nextCts returns a value strictly greater than
the stored lastCts and than the value returned by the previous call on the
same App — it returns max(lastCts+1, Date.now()) and stores the result —
so the cts values stamped on successively created pub operations are
strictly increasing even when the wall clock does not advance or moves
backwards. -/
theorem claim10_cts_monotonic :
    (∀ (s : CtsState) (now : Nat),
      s.lastCts < (App.nextCts now s).2 ∧ (App.nextCts now s).1.lastCts = (App.nextCts now s).2) ∧
    (∀ (s : CtsState) (now1 now2 : Nat),
      (App.nextCts now1 s).2 < (App.nextCts now2 (App.nextCts now1 s).1).2) ∧
    (∀ (k1 k2 : Key) (s : CtsState) (now1 now2 : Nat),
      (Operation.pub k1 now1 s).2.cts
        < (Operation.pub k2 now2 (Operation.pub k1 now1 s).1).2.cts) := by
  refine ⟨?_, ?_, ?_⟩
  · intro s now
    constructor
    · calc s.lastCts < s.lastCts + 1 := Nat.lt_succ_self _
        _ ≤ Nat.max (s.lastCts + 1) now := Nat.le_max_left _ _
    · rfl
  · intro s now1 now2
    show Nat.max (s.lastCts + 1) now1 < Nat.max (Nat.max (s.lastCts + 1) now1 + 1) now2
    calc Nat.max (s.lastCts + 1) now1 < Nat.max (s.lastCts + 1) now1 + 1 := Nat.lt_succ_self _
      _ ≤ Nat.max (Nat.max (s.lastCts + 1) now1 + 1) now2 := Nat.le_max_left _ _
  · intro k1 k2 s now1 now2
    show Nat.max (s.lastCts + 1) now1 < Nat.max (Nat.max (s.lastCts + 1) now1 + 1) now2
    calc Nat.max (s.lastCts + 1) now1 < Nat.max (s.lastCts + 1) now1 + 1 := Nat.lt_succ_self _
      _ ≤ Nat.max (Nat.max (s.lastCts + 1) now1 + 1) now2 := Nat.le_max_left _ _

end CSync
